import Mathlib

/-!
Verification of the kafka-replay message transcoder and replay pipeline.

This file is a shallow embedding of the Go sources:
  * `pkg/transcoder/constants.go`   — protocol constants
  * `pkg/transcoder/encoder.go`     — `EncodeWriter` (version-2 writer)
  * `pkg/transcoder/decoder.go`     — `DecodeReader` (version-1/2 reader)
  * `pkg/transcoder/legacy/v1.go`   — `V1ReadMessage` (legacy record reader)
  * `pkg/replay.go`                 — `Replay` (decoder → sink session)

Bytes are modelled as `Nat` (all produced bytes are `< 256`), byte streams
as `List Nat`.  Go's `io.ReadFull` on a `bytes.Reader` is modelled by
`readFull`: it either yields exactly `n` bytes or fails; the Go code maps
both `io.EOF` and `io.ErrUnexpectedEOF` to `io.EOF`, which the model
reflects by a single `eof` outcome.  Machine integers are `Int`/`Nat`
with explicit two's-complement reinterpretation (`toInt64`, `toInt32`)
where the code converts between signed and unsigned forms.  `time.Time`
values are whole-second Unix timestamps (`Int`); the decoder's
`preserveTimestamps=false` branch, which calls `time.Now()`, takes the
ambient clock as an explicit `now : Int` parameter.  The replay session's
context (cancellation) is modelled as never cancelled, its rate-limiter
tick as always ready (pacing has no effect on counts or dispatches), and
the Kafka producer as an always-succeeding sink that records the batches
it was handed.
-/

/-- Little-endian byte decomposition of a natural number into `w` bytes. -/
def leBytes : Nat → Nat → List Nat
  | 0, _ => []
  | w + 1, n => n % 256 :: leBytes w (n / 256)

/-- Big-endian byte decomposition, as produced by `binary.BigEndian.PutUintNN`. -/
def beBytes (w n : Nat) : List Nat := (leBytes w n).reverse

/-- Value of a little-endian byte list. -/
def leToNat : List Nat → Nat
  | [] => 0
  | b :: bs => b + 256 * leToNat bs

/-- Value of a big-endian byte list, as read by `binary.BigEndian.UintNN`. -/
def beToNat (bs : List Nat) : Nat := leToNat bs.reverse

/-- Reinterpret a 64-bit unsigned value as Go's `int64(...)` conversion does. -/
def toInt64 (n : Nat) : Int :=
  if n < 2 ^ 63 then (n : Int) else (n : Int) - 2 ^ 64

/-- Reinterpret a 32-bit unsigned value as Go's `int32(...)` conversion does. -/
def toInt32 (n : Nat) : Int :=
  if n < 2 ^ 31 then (n : Int) else (n : Int) - 2 ^ 32

/-- Reinterpret a signed 64-bit value as Go's `uint64(...)` conversion does. -/
def int64ToUint64 (t : Int) : Nat := (t % (2 ^ 64 : Int)).toNat

theorem leBytes_length (w n : Nat) : (leBytes w n).length = w := by
  induction w generalizing n with
  | zero => rfl
  | succ w ih => simp [leBytes, ih]

theorem beBytes_length (w n : Nat) : (beBytes w n).length = w := by
  simp [beBytes, leBytes_length]

theorem leToNat_leBytes (w n : Nat) : leToNat (leBytes w n) = n % 256 ^ w := by
  induction w generalizing n with
  | zero => simp [leBytes, leToNat, Nat.mod_one]
  | succ w ih =>
    simp only [leBytes, leToNat, ih]
    rw [pow_succ, Nat.mul_comm (256 ^ w) 256, Nat.mod_mul]

theorem beToNat_beBytes (w n : Nat) : beToNat (beBytes w n) = n % 256 ^ w := by
  simp [beToNat, beBytes, leToNat_leBytes]

theorem beToNat_beBytes_of_lt {w n : Nat} (h : n < 256 ^ w) :
    beToNat (beBytes w n) = n := by
  rw [beToNat_beBytes, Nat.mod_eq_of_lt h]

/-- Encoding a signed 64-bit timestamp and decoding it back is the identity. -/
theorem toInt64_roundtrip (t : Int) (h1 : -(2 ^ 63) ≤ t) (h2 : t < 2 ^ 63) :
    toInt64 (beToNat (beBytes 8 (int64ToUint64 t))) = t := by
  have h256 : (256 : Nat) ^ 8 = 2 ^ 64 := by norm_num
  have hmodlt : t % (2 ^ 64 : Int) < 2 ^ 64 := Int.emod_lt_of_pos t (by norm_num)
  have hmodnn : 0 ≤ t % (2 ^ 64 : Int) := Int.emod_nonneg t (by norm_num)
  have hlt : int64ToUint64 t < 256 ^ 8 := by
    rw [h256]
    unfold int64ToUint64
    omega
  rw [beToNat_beBytes_of_lt hlt]
  unfold toInt64 int64ToUint64
  split <;> omega

/-! ## Protocol constants (`pkg/transcoder/constants.go`) -/

/-- Current version of the binary protocol. -/
def ProtocolVersion : Int := 2

/-- Legacy version 1 (without message keys). -/
def ProtocolVersion1 : Int := 1

/-- Size of the version field in the header (int32 = 4 bytes). -/
def HeaderVersionSize : Nat := 4

/-- Size of reserved space in the header. -/
def HeaderReservedSize : Nat := 16

/-- Total size of the file header. -/
def HeaderSize : Nat := HeaderVersionSize + HeaderReservedSize

/-- Size of the timestamp field (int64 Unix timestamp = 8 bytes). -/
def TimestampSize : Nat := 8

/-- Size of the message size field (int64 = 8 bytes). -/
def SizeFieldSize : Nat := 8

/-- Size of the key size field (int64 = 8 bytes). -/
def KeySizeFieldSize : Nat := 8

/-! ## Records

`Entry` is the decoder's record type (`decoder.go`): a whole-second Unix
timestamp, a key that is a Go `[]byte` which is either `nil` (`none`) or
non-nil (`some bytes`), and the payload bytes.  The encoder's `Write`
takes the same three logical fields. -/

structure Entry where
  timestamp : Int
  key : Option (List Nat)
  data : List Nat
deriving DecidableEq, Repr

/-! ## Encoder (`pkg/transcoder/encoder.go`) -/

/-- Header bytes written by `EncodeWriter.writeFileHeader`: protocol
version 2 as a big-endian int32 followed by 16 zero reserved bytes. -/
def fileHeaderBytes : List Nat :=
  beBytes HeaderVersionSize (int64ToUint64 ProtocolVersion % 2 ^ 32) ++
    List.replicate HeaderReservedSize 0

/-- The byte sequence appended to the sink by one `EncodeWriter.Write` call:
timestamp (8 bytes) + key size (8 bytes) + message size (8 bytes) +
key (only when key size > 0) + message data.  `key = none` models a nil
Go slice; its key size is 0 and no key bytes are written. -/
def writeRecordBytes (timestamp : Int) (messageData : List Nat)
    (key : Option (List Nat)) : List Nat :=
  let keyBytes := match key with | none => [] | some k => k
  let keySize := keyBytes.length
  beBytes TimestampSize (int64ToUint64 timestamp) ++
    beBytes KeySizeFieldSize keySize ++
    beBytes SizeFieldSize messageData.length ++
    (if 0 < keySize then keyBytes else []) ++
    messageData

/-- The `bytesWritten` value returned by `EncodeWriter.Write`. -/
def bytesWrittenFor (messageData : List Nat) (key : Option (List Nat)) : Int :=
  let keySize : Int := match key with | none => 0 | some k => k.length
  (TimestampSize : Int) + KeySizeFieldSize + SizeFieldSize + keySize +
    messageData.length

/-- `EncodeWriter` state: the bytes written to the sink so far and the
running `totalBytes` counter. -/
structure EncodeWriter where
  out : List Nat
  totalBytes : Int
deriving DecidableEq, Repr

/-- `NewEncodeWriter`: writes the file header and starts the byte counter
at `HeaderSize`. -/
def NewEncodeWriter : EncodeWriter :=
  { out := fileHeaderBytes, totalBytes := (HeaderSize : Int) }

/-- `EncodeWriter.Write`: appends one version-2 record and returns the
number of bytes it occupied. -/
def EncodeWriter.Write (e : EncodeWriter) (timestamp : Int)
    (messageData : List Nat) (key : Option (List Nat)) : EncodeWriter × Int :=
  let bw := bytesWrittenFor messageData key
  ({ out := e.out ++ writeRecordBytes timestamp messageData key,
     totalBytes := e.totalBytes + bw }, bw)

/-- `EncodeWriter.TotalBytes`. -/
def EncodeWriter.TotalBytes (e : EncodeWriter) : Int := e.totalBytes

/-- Container produced by opening an encoder and writing each record of
`msgs` in order (header, then each record via `Write`). -/
def encodeContainer (msgs : List Entry) : List Nat :=
  (msgs.foldl (fun e m => (e.Write m.timestamp m.data m.key).1)
    NewEncodeWriter).out

/-! ## Decoder (`pkg/transcoder/decoder.go`, `pkg/transcoder/legacy/v1.go`) -/

/-- Errors produced mid-stream by `DecodeReader.Read` other than `io.EOF`:
the size sanity checks (`invalid key size`, `invalid message size`). -/
inductive FramingError where
  | invalidKeySize (n : Int)
  | invalidMessageSize (n : Int)
deriving DecidableEq, Repr

/-- Outcome of reading one record from a byte stream.  `eof` models
`io.EOF`, which the Go code returns both when the source is exhausted at
a record boundary and when `io.ReadFull` ends mid-field
(`io.ErrUnexpectedEOF` is mapped to `io.EOF` at every read site).
`ok e c` returns the entry and the number of bytes consumed. -/
inductive ReadResult where
  | eof
  | err (e : FramingError)
  | ok (e : Entry) (consumed : Nat)
deriving DecidableEq, Repr

/-- `io.ReadFull reader buf` on an in-memory stream: yields exactly `n`
bytes and the remaining stream, or fails when fewer than `n` remain. -/
def readFull (n : Nat) (rest : List Nat) : Option (List Nat × List Nat) :=
  if rest.length < n then none else some (rest.take n, rest.drop n)

/-- `legacy.V1ReadMessage`: message size (8 bytes) + message data; the
timestamp was already read by the caller and arrives as `tsBuf`.  The key
is always nil for version 1. -/
def V1ReadMessage (preserveTimestamps : Bool) (now : Int) (tsBuf : List Nat)
    (r1 : List Nat) : ReadResult :=
  match readFull SizeFieldSize r1 with
  | none => .eof
  | some (sizeBuf, r2) =>
    let messageSize : Int := toInt64 (beToNat sizeBuf)
    if messageSize < 0 ∨ 100 * 1024 * 1024 < messageSize then
      .err (.invalidMessageSize messageSize)
    else
      match readFull messageSize.toNat r2 with
      | none => .eof
      | some (messageData, _) =>
        .ok ⟨if preserveTimestamps then toInt64 (beToNat tsBuf) else now,
             none, messageData⟩
          (TimestampSize + SizeFieldSize + messageSize.toNat)

/-- One `DecodeReader.Read` step on the remaining stream `rest`:
timestamp, then the layout selected by the protocol version. -/
def readRecord (version : Int) (preserveTimestamps : Bool) (now : Int)
    (rest : List Nat) : ReadResult :=
  match readFull TimestampSize rest with
  | none => .eof
  | some (tsBuf, r1) =>
    if version = ProtocolVersion1 then
      V1ReadMessage preserveTimestamps now tsBuf r1
    else
      match readFull KeySizeFieldSize r1 with
      | none => .eof
      | some (keySizeBuf, r2) =>
        let keySize : Int := toInt64 (beToNat keySizeBuf)
        if keySize < 0 ∨ 100 * 1024 * 1024 < keySize then
          .err (.invalidKeySize keySize)
        else
          match readFull SizeFieldSize r2 with
          | none => .eof
          | some (sizeBuf, r3) =>
            let messageSize : Int := toInt64 (beToNat sizeBuf)
            if messageSize < 0 ∨ 100 * 1024 * 1024 < messageSize then
              .err (.invalidMessageSize messageSize)
            else
              if 0 < keySize then
                match readFull keySize.toNat r3 with
                | none => .eof
                | some (keyData, r4) =>
                  match readFull messageSize.toNat r4 with
                  | none => .eof
                  | some (messageData, _) =>
                    .ok ⟨if preserveTimestamps then toInt64 (beToNat tsBuf)
                           else now,
                         some keyData, messageData⟩
                      (TimestampSize + KeySizeFieldSize + SizeFieldSize +
                        keySize.toNat + messageSize.toNat)
              else
                match readFull messageSize.toNat r3 with
                | none => .eof
                | some (messageData, _) =>
                  .ok ⟨if preserveTimestamps then toInt64 (beToNat tsBuf)
                         else now,
                       none, messageData⟩
                    (TimestampSize + KeySizeFieldSize + SizeFieldSize +
                      messageSize.toNat)

/-- Failure of `NewDecodeReader`: the header read failed (fewer than 20
bytes available) or the parsed version is neither 1 nor 2. -/
inductive OpenError where
  | headerReadFailed
  | unsupportedVersion (v : Int)
deriving DecidableEq, Repr

/-- `DecodeReader` state.  `data` is the container content after the
20-byte header (`dataStartOffset` in the source is the fixed position
`HeaderSize`, so `pos` here is the cursor relative to that position;
`Reset` seeks back to it, i.e. sets `pos := 0`). -/
structure DecodeReader where
  data : List Nat
  pos : Nat
  preserveTimestamps : Bool
  protocolVersion : Int
deriving DecidableEq, Repr

/-- `NewDecodeReader`: reads and validates the 20-byte header, records the
detected version, and positions the cursor at the start of message data. -/
def NewDecodeReader (content : List Nat) (preserveTimestamps : Bool) :
    Except OpenError DecodeReader :=
  if content.length < HeaderSize then .error .headerReadFailed
  else
    let v := toInt32 (beToNat (content.take HeaderVersionSize))
    if v ≠ ProtocolVersion1 ∧ v ≠ ProtocolVersion then
      .error (.unsupportedVersion v)
    else
      .ok { data := content.drop HeaderSize, pos := 0,
            preserveTimestamps := preserveTimestamps, protocolVersion := v }

/-- Outcome of `DecodeReader.Read`: a record plus the advanced reader,
`io.EOF`, or a framing error. -/
inductive ReadOut where
  | eof
  | err (e : FramingError)
  | ok (e : Entry) (d : DecodeReader)
deriving DecidableEq, Repr

/-- `DecodeReader.Read`: reads the next complete message, advancing the
cursor. -/
def DecodeReader.Read (d : DecodeReader) (now : Int) : ReadOut :=
  match readRecord d.protocolVersion d.preserveTimestamps now
      (d.data.drop d.pos) with
  | .eof => .eof
  | .err e => .err e
  | .ok e c => .ok e { d with pos := d.pos + c }

/-- `DecodeReader.Reset`: seek back to the start of message data. -/
def DecodeReader.Reset (d : DecodeReader) : DecodeReader := { d with pos := 0 }

/-- Drain the decoder: the list of records returned by successive `Read`
calls, together with the terminal signal (`none` for `io.EOF`, `some e`
for a framing error).  Fuel-indexed; `none` means the fuel ran out. -/
def readEntries : Nat → DecodeReader → Int →
    Option (List Entry × Option FramingError)
  | 0, _, _ => none
  | fuel + 1, d, now =>
    match d.Read now with
    | .eof => some ([], none)
    | .err e => some ([], some e)
    | .ok e d' => (readEntries fuel d' now).map fun p => (e :: p.1, p.2)

/-- Open a container and drain it.  The fuel `d.data.length + 1` always
suffices (each successful `Read` consumes at least one byte). -/
def decodeContainer (content : List Nat) (preserveTimestamps : Bool)
    (now : Int) : Except OpenError (Option (List Entry × Option FramingError)) :=
  match NewDecodeReader content preserveTimestamps with
  | .error e => .error e
  | .ok d => .ok (readEntries (d.data.length + 1) d now)

/-! ## Hand-constructed legacy (version 1) containers

No code in the repository writes the legacy layout; these builders follow
the documented layout that `V1ReadMessage` reads:
`timestamp(8) + payloadSize(8) + payload`. -/

/-- A legacy header: version 1 as a big-endian int32, 16 reserved zeros. -/
def legacyHeaderBytes : List Nat :=
  beBytes HeaderVersionSize (int64ToUint64 ProtocolVersion1 % 2 ^ 32) ++
    List.replicate HeaderReservedSize 0

/-- One legacy-layout record. -/
def legacyRecordBytes (timestamp : Int) (messageData : List Nat) : List Nat :=
  beBytes TimestampSize (int64ToUint64 timestamp) ++
    beBytes SizeFieldSize messageData.length ++ messageData

/-- A legacy-layout container for a list of (timestamp, payload) pairs. -/
def legacyContainer (msgs : List (Int × List Nat)) : List Nat :=
  legacyHeaderBytes ++ msgs.flatMap fun m => legacyRecordBytes m.1 m.2

/-! ## Replay session (`pkg/replay.go`) -/

/-- Number of messages to batch before writing to Kafka. -/
def BatchSize : Nat := 10000

/-- Maximum bytes to batch before writing (50MB). -/
def BatchBytes : Int := 50 * 1024 * 1024

/-- `hasPrefSeq hay needle`: `hay` begins with `needle`. -/
def hasPrefSeq : List Nat → List Nat → Bool
  | _, [] => true
  | [], _ :: _ => false
  | a :: as, b :: bs => a == b && hasPrefSeq as bs

/-- `bytes.Contains hay needle`: `needle` occurs in `hay` as a contiguous
subsequence. -/
def bytesContains : List Nat → List Nat → Bool
  | [], needle => needle.isEmpty
  | a :: t, needle => hasPrefSeq (a :: t) needle || bytesContains t needle

/-- A `kafka.Message` as built by `Replay`: key, value, time, and the
partition (0 unless `cfg.Partition` overrides it). -/
structure KafkaMessage where
  key : Option (List Nat)
  value : List Nat
  time : Int
  partition : Int
deriving DecidableEq, Repr

/-- Configuration for `Replay` (producer and decoder are passed
separately; the log writer is irrelevant to the embedded behaviour). -/
structure ReplayConfig where
  Rate : Nat
  Loop : Bool
  Partition : Option Int
  DryRun : Bool
  FindBytes : Option (List Nat)
deriving DecidableEq, Repr

/-- Mutable state of the `Replay` loop.  `sent` records, in order, every
batch passed to `Producer.WriteMessages` (the sink, modelled as always
succeeding). -/
structure ReplayState where
  dec : DecodeReader
  batch : List KafkaMessage
  batchBytes : Int
  messageCount : Int
  sent : List (List KafkaMessage)
deriving DecidableEq, Repr

/-- The `flushBatch` closure: a no-op on an empty batch; in dry-run mode
clears the batch without dispatching; otherwise dispatches the batch and
clears it. -/
def flushBatch (dryRun : Bool) (st : ReplayState) : ReplayState :=
  if st.batch.isEmpty then st
  else if dryRun then { st with batch := [], batchBytes := 0 }
  else { st with sent := st.sent ++ [st.batch], batch := [], batchBytes := 0 }

/-- The kafka message `Replay` builds from a decoded entry. -/
def entryToMessage (cfg : ReplayConfig) (e : Entry) : KafkaMessage :=
  { key := e.key, value := e.data, time := e.timestamp,
    partition := match cfg.Partition with | some p => p | none => 0 }

/-- Does an entry survive the `FindBytes` filter? -/
def matchesFilter (findBytes : Option (List Nat)) (e : Entry) : Bool :=
  match findBytes with
  | some f => bytesContains e.data f
  | none => true

/-- The `Replay` main loop, on the never-cancelled, always-ticking
execution path: read; on `io.EOF` flush and either reset-and-loop or
terminate; on a framing error return it (the code flushes there only when
the context was additionally cancelled, which this path excludes); on a
record apply the filter, build the message, extend the batch, and flush
when a batch limit is reached.  Fuel-indexed; `none` means the fuel ran
out (with `Loop` set the session never terminates on its own). -/
def replayLoop (cfg : ReplayConfig) (now : Int) :
    Nat → ReplayState → Option (ReplayState × Option FramingError)
  | 0, _ => none
  | fuel + 1, st =>
    match st.dec.Read now with
    | .eof =>
      let st' := flushBatch cfg.DryRun st
      if cfg.Loop then
        replayLoop cfg now fuel { st' with dec := st'.dec.Reset }
      else
        some (st', none)
    | .err e => some (st, some e)
    | .ok entry d' =>
      if matchesFilter cfg.FindBytes entry then
        let st' := { st with
                     dec := d',
                     batch := st.batch ++ [entryToMessage cfg entry],
                     batchBytes := st.batchBytes + entry.data.length,
                     messageCount := st.messageCount + 1 }
        let st'' :=
          if BatchSize ≤ st'.batch.length ∨ BatchBytes ≤ st'.batchBytes then
            flushBatch cfg.DryRun st'
          else st'
        replayLoop cfg now fuel st''
      else
        replayLoop cfg now fuel { st with dec := d' }

/-- `Replay`: run the loop from a fresh state over the given decoder and
report `(messageCount, batches dispatched, terminal error)`.  The fuel
`d.data.length - d.pos + 1` suffices whenever `Loop` is unset. -/
def Replay (cfg : ReplayConfig) (d : DecodeReader) (now : Int) :
    Option (Int × List (List KafkaMessage) × Option FramingError) :=
  (replayLoop cfg now (d.data.length - d.pos + 1)
      { dec := d, batch := [], batchBytes := 0, messageCount := 0, sent := [] }).map
    fun p => (p.1.messageCount, p.1.sent, p.2)

/-! ## Helper lemmas: reading back what was written -/

theorem readFull_append {n : Nat} (b r : List Nat) (h : b.length = n) :
    readFull n (b ++ r) = some (b, r) := by
  simp [readFull, ← h, List.take_left, List.drop_left]

theorem readFull_short {n : Nat} (rest : List Nat) (h : rest.length < n) :
    readFull n rest = none := by
  simp [readFull, h]

theorem readFull_of_le {n : Nat} (rest : List Nat) (h : n ≤ rest.length) :
    readFull n rest = some (rest.take n, rest.drop n) := by
  simp [readFull]
  omega

/-- An in-bounds size field decodes to its own value. -/
theorem size_field_value {n : Nat} (h : n ≤ 100 * 1024 * 1024) :
    toInt64 (beToNat (beBytes 8 n)) = (n : Int) := by
  rw [beToNat_beBytes_of_lt (by norm_num; omega), toInt64, if_pos (by norm_num; omega)]

/-- Reading at the end of the stream yields `io.EOF`. -/
theorem readRecord_nil (version : Int) (p : Bool) (now : Int) :
    readRecord version p now [] = .eof := by
  unfold readRecord
  rw [readFull_short _ (by simp [TimestampSize])]

/-- Decoding one version-2 record with a nil key from the front of a
stream recovers the record and consumes exactly its bytes. -/
theorem readRecord_write_none (now t : Int) (dat rest : List Nat)
    (ht1 : -(2 ^ 63) ≤ t) (ht2 : t < 2 ^ 63)
    (hd : dat.length ≤ 100 * 1024 * 1024) :
    readRecord ProtocolVersion true now (writeRecordBytes t dat none ++ rest) =
      .ok ⟨t, none, dat⟩ (24 + dat.length) := by
  simp only [writeRecordBytes, List.append_assoc, TimestampSize, KeySizeFieldSize,
    SizeFieldSize, List.length_nil]
  unfold readRecord
  simp only [TimestampSize, KeySizeFieldSize, SizeFieldSize]
  rw [readFull_append _ _ (beBytes_length _ _)]
  simp only [ProtocolVersion, ProtocolVersion1]
  rw [if_neg (by decide : ¬ (2 : Int) = 1)]
  rw [readFull_append _ _ (beBytes_length _ _)]
  simp only [size_field_value (by norm_num : (0 : Nat) ≤ 100 * 1024 * 1024),
    size_field_value hd, Nat.cast_zero]
  rw [if_neg (by decide)]
  rw [readFull_append _ _ (beBytes_length _ _)]
  simp only [size_field_value hd]
  rw [if_neg (by push_cast; omega)]
  rw [if_neg (by decide : ¬ (0 : Int) < 0)]
  simp only [Int.toNat_natCast, ite_self, List.nil_append]
  rw [readFull_append _ _ rfl]
  simp only [if_true, toInt64_roundtrip t ht1 ht2]

/-- Decoding one version-2 record with a non-empty key from the front of
a stream recovers the record and consumes exactly its bytes. -/
theorem readRecord_write_some (now t : Int) (k dat rest : List Nat)
    (ht1 : -(2 ^ 63) ≤ t) (ht2 : t < 2 ^ 63) (hk0 : k ≠ [])
    (hk : k.length ≤ 100 * 1024 * 1024) (hd : dat.length ≤ 100 * 1024 * 1024) :
    readRecord ProtocolVersion true now (writeRecordBytes t dat (some k) ++ rest) =
      .ok ⟨t, some k, dat⟩ (24 + k.length + dat.length) := by
  simp only [writeRecordBytes, List.append_assoc, TimestampSize, KeySizeFieldSize,
    SizeFieldSize]
  rw [if_pos (List.length_pos.mpr hk0)]
  unfold readRecord
  simp only [TimestampSize, KeySizeFieldSize, SizeFieldSize]
  rw [readFull_append _ _ (beBytes_length _ _)]
  simp only [ProtocolVersion, ProtocolVersion1]
  rw [if_neg (by decide : ¬ (2 : Int) = 1)]
  rw [readFull_append _ _ (beBytes_length _ _)]
  simp only [size_field_value hk]
  rw [if_neg (by push_cast; omega)]
  rw [readFull_append _ _ (beBytes_length _ _)]
  simp only [size_field_value hd]
  rw [if_neg (by push_cast; omega)]
  rw [if_pos (by exact_mod_cast List.length_pos.mpr hk0)]
  simp only [Int.toNat_natCast]
  rw [readFull_append _ _ rfl]
  simp only []
  rw [readFull_append _ _ rfl]
  simp only [if_true, toInt64_roundtrip t ht1 ht2]

/-- Decoding one legacy record from the front of a stream recovers the
record with a nil key and consumes exactly its bytes. -/
theorem readRecord_legacy (now t : Int) (dat rest : List Nat)
    (ht1 : -(2 ^ 63) ≤ t) (ht2 : t < 2 ^ 63)
    (hd : dat.length ≤ 100 * 1024 * 1024) :
    readRecord ProtocolVersion1 true now (legacyRecordBytes t dat ++ rest) =
      .ok ⟨t, none, dat⟩ (16 + dat.length) := by
  simp only [legacyRecordBytes, List.append_assoc, TimestampSize, SizeFieldSize]
  unfold readRecord
  simp only [TimestampSize]
  rw [readFull_append _ _ (beBytes_length _ _)]
  simp only [if_true]
  unfold V1ReadMessage
  simp only [SizeFieldSize]
  rw [readFull_append _ _ (beBytes_length _ _)]
  simp only [size_field_value hd]
  rw [if_neg (by push_cast; omega)]
  simp only [Int.toNat_natCast]
  rw [readFull_append _ _ rfl]
  simp only [if_true, toInt64_roundtrip t ht1 ht2]
  norm_num [TimestampSize]

def validEntry (m : Entry) : Bool :=
  decide (-(2 ^ 63) ≤ m.timestamp) && decide (m.timestamp < 2 ^ 63) &&
    (match m.key with
     | none => true
     | some k => !k.isEmpty && decide (k.length ≤ 100 * 1024 * 1024)) &&
    decide (m.data.length ≤ 100 * 1024 * 1024)

theorem validEntry_ts {m : Entry} (h : validEntry m = true) :
    -(2 ^ 63) ≤ m.timestamp ∧ m.timestamp < 2 ^ 63 := by
  simp only [validEntry, Bool.and_eq_true, decide_eq_true_eq] at h
  exact ⟨h.1.1.1, h.1.1.2⟩

theorem validEntry_data {m : Entry} (h : validEntry m = true) :
    m.data.length ≤ 100 * 1024 * 1024 := by
  simp only [validEntry, Bool.and_eq_true, decide_eq_true_eq] at h
  exact h.2

theorem validEntry_key {m : Entry} {k : List Nat} (h : validEntry m = true)
    (hk : m.key = some k) : k ≠ [] ∧ k.length ≤ 100 * 1024 * 1024 := by
  simp only [validEntry, hk, Bool.and_eq_true, decide_eq_true_eq,
    Bool.not_eq_true'] at h
  refine ⟨?_, h.1.2.2⟩
  have := h.1.2.1
  simpa [List.isEmpty_iff] using this

theorem writeRecordBytes_length_ge (t : Int) (dat : List Nat)
    (key : Option (List Nat)) : 24 ≤ (writeRecordBytes t dat key).length := by
  cases key <;>
    simp [writeRecordBytes, beBytes_length, TimestampSize, KeySizeFieldSize,
      SizeFieldSize, List.length_append] <;> omega

theorem writeRecordBytes_length_none (t : Int) (dat : List Nat) :
    (writeRecordBytes t dat none).length = 24 + dat.length := by
  simp [writeRecordBytes, beBytes_length, TimestampSize, KeySizeFieldSize,
    SizeFieldSize, List.length_append]
  omega

theorem writeRecordBytes_length_some (t : Int) (dat k : List Nat) (hk : k ≠ []) :
    (writeRecordBytes t dat (some k)).length = 24 + k.length + dat.length := by
  simp [writeRecordBytes, beBytes_length, TimestampSize, KeySizeFieldSize,
    SizeFieldSize, List.length_append, List.length_pos.mpr hk]
  omega

theorem encodeWriter_foldl_out : ∀ (msgs : List Entry) (e : EncodeWriter),
    (msgs.foldl (fun e m => (e.Write m.timestamp m.data m.key).1) e).out =
      e.out ++ msgs.flatMap fun m => writeRecordBytes m.timestamp m.data m.key
  | [], e => by simp
  | m :: ms, e => by
    rw [List.foldl_cons, encodeWriter_foldl_out ms]
    simp [EncodeWriter.Write, List.append_assoc]

theorem encodeContainer_eq (msgs : List Entry) :
    encodeContainer msgs =
      fileHeaderBytes ++ msgs.flatMap fun m => writeRecordBytes m.timestamp m.data m.key := by
  simp [encodeContainer, encodeWriter_foldl_out, NewEncodeWriter]

theorem fileHeaderBytes_length : fileHeaderBytes.length = HeaderSize := by decide

theorem legacyHeaderBytes_length : legacyHeaderBytes.length = HeaderSize := by decide

theorem NewDecodeReader_current (body : List Nat) (p : Bool) :
    NewDecodeReader (fileHeaderBytes ++ body) p =
      .ok ⟨body, 0, p, ProtocolVersion⟩ := by
  unfold NewDecodeReader
  rw [if_neg (by simp [List.length_append, fileHeaderBytes_length, HeaderSize])]
  rw [List.take_append_of_le_length
    (by rw [fileHeaderBytes_length]; decide)]
  have hv : toInt32 (beToNat (fileHeaderBytes.take HeaderVersionSize)) =
      ProtocolVersion := by decide
  rw [hv]
  rw [if_neg (by decide)]
  rw [List.drop_left' fileHeaderBytes_length]

theorem NewDecodeReader_legacy (body : List Nat) (p : Bool) :
    NewDecodeReader (legacyHeaderBytes ++ body) p =
      .ok ⟨body, 0, p, ProtocolVersion1⟩ := by
  unfold NewDecodeReader
  rw [if_neg (by simp [List.length_append, legacyHeaderBytes_length, HeaderSize])]
  rw [List.take_append_of_le_length
    (by rw [legacyHeaderBytes_length]; decide)]
  have hv : toInt32 (beToNat (legacyHeaderBytes.take HeaderVersionSize)) =
      ProtocolVersion1 := by decide
  rw [hv]
  rw [if_neg (by decide)]
  rw [List.drop_left' legacyHeaderBytes_length]

theorem readEntries_flatMap (now : Int) :
    ∀ (msgs : List Entry) (d : DecodeReader),
      (∀ m ∈ msgs, validEntry m = true) →
      d.protocolVersion = ProtocolVersion →
      d.preserveTimestamps = true →
      d.data.drop d.pos =
        (msgs.flatMap fun m => writeRecordBytes m.timestamp m.data m.key) →
      readEntries (msgs.length + 1) d now = some (msgs, none)
  | [], d => by
    intro _ hver hpre hdrop
    simp only [List.flatMap_nil] at hdrop
    simp [readEntries, DecodeReader.Read, hdrop, hver, hpre, readRecord_nil]
  | m :: ms, d => by
    intro hval hver hpre hdrop
    simp only [List.flatMap_cons] at hdrop
    have hm := hval m (List.mem_cons_self m ms)
    have hts := validEntry_ts hm
    have hdat := validEntry_data hm
    obtain ⟨t, mk, dat⟩ := m
    have hread : readRecord d.protocolVersion d.preserveTimestamps now
        (d.data.drop d.pos) =
        .ok ⟨t, mk, dat⟩ ((writeRecordBytes t dat mk).length) := by
      rw [hver, hpre, hdrop]
      cases mk with
      | none =>
        rw [readRecord_write_none now t dat _ hts.1 hts.2 hdat,
          writeRecordBytes_length_none]
      | some k =>
        have hkk := validEntry_key hm rfl
        rw [readRecord_write_some now t k dat _ hts.1 hts.2 hkk.1 hkk.2 hdat,
          writeRecordBytes_length_some t dat k hkk.1]
    have hRead : DecodeReader.Read d now =
        .ok ⟨t, mk, dat⟩
          { d with pos := d.pos + (writeRecordBytes t dat mk).length } := by
      unfold DecodeReader.Read
      rw [hread]
    have hdrop2 :
        (({ d with pos := d.pos + (writeRecordBytes t dat mk).length } :
          DecodeReader).data.drop
          (d.pos + (writeRecordBytes t dat mk).length)) =
        ms.flatMap fun m => writeRecordBytes m.timestamp m.data m.key := by
      show d.data.drop (d.pos + (writeRecordBytes t dat mk).length) = _
      rw [← List.drop_drop, hdrop, List.drop_left]
    have ih := readEntries_flatMap now ms
      { d with pos := d.pos + (writeRecordBytes t dat mk).length }
      (fun x hx => hval x (List.mem_cons_of_mem _ hx)) hver hpre hdrop2
    simp only [List.length_cons]
    rw [show ms.length + 1 + 1 = (ms.length + 1) + 1 from rfl]
    unfold readEntries
    rw [hRead]
    simp [ih]

def validLegacy (p : Int × List Nat) : Bool :=
  decide (-(2 ^ 63) ≤ p.1) && decide (p.1 < 2 ^ 63) &&
    decide (p.2.length ≤ 100 * 1024 * 1024)

theorem legacyRecordBytes_length (t : Int) (dat : List Nat) :
    (legacyRecordBytes t dat).length = 16 + dat.length := by
  simp [legacyRecordBytes, beBytes_length, TimestampSize, SizeFieldSize,
    List.length_append]
  omega

theorem readEntries_flatMap_legacy (now : Int) :
    ∀ (msgs : List (Int × List Nat)) (d : DecodeReader),
      (∀ m ∈ msgs, validLegacy m = true) →
      d.protocolVersion = ProtocolVersion1 →
      d.preserveTimestamps = true →
      d.data.drop d.pos = (msgs.flatMap fun m => legacyRecordBytes m.1 m.2) →
      readEntries (msgs.length + 1) d now =
        some (msgs.map fun m => ⟨m.1, none, m.2⟩, none)
  | [], d => by
    intro _ hver hpre hdrop
    simp only [List.flatMap_nil] at hdrop
    simp [readEntries, DecodeReader.Read, hdrop, hver, hpre, readRecord_nil]
  | m :: ms, d => by
    intro hval hver hpre hdrop
    simp only [List.flatMap_cons] at hdrop
    have hm := hval m (List.mem_cons_self m ms)
    simp only [validLegacy, Bool.and_eq_true, decide_eq_true_eq] at hm
    obtain ⟨t, dat⟩ := m
    have hread : readRecord d.protocolVersion d.preserveTimestamps now
        (d.data.drop d.pos) =
        .ok ⟨t, none, dat⟩ ((legacyRecordBytes t dat).length) := by
      rw [hver, hpre, hdrop, readRecord_legacy now t dat _ hm.1.1 hm.1.2 hm.2,
        legacyRecordBytes_length]
    have hRead : DecodeReader.Read d now =
        .ok ⟨t, none, dat⟩
          { d with pos := d.pos + (legacyRecordBytes t dat).length } := by
      unfold DecodeReader.Read
      rw [hread]
    have hdrop2 :
        (({ d with pos := d.pos + (legacyRecordBytes t dat).length } :
          DecodeReader).data.drop (d.pos + (legacyRecordBytes t dat).length)) =
        ms.flatMap fun m => legacyRecordBytes m.1 m.2 := by
      show d.data.drop (d.pos + (legacyRecordBytes t dat).length) = _
      rw [← List.drop_drop, hdrop, List.drop_left]
    have ih := readEntries_flatMap_legacy now ms
      { d with pos := d.pos + (legacyRecordBytes t dat).length }
      (fun x hx => hval x (List.mem_cons_of_mem _ hx)) hver hpre hdrop2
    simp only [List.length_cons]
    rw [show ms.length + 1 + 1 = (ms.length + 1) + 1 from rfl]
    unfold readEntries
    rw [hRead]
    simp [ih]

theorem readEntries_mono (now : Int) :
    ∀ (f f' : Nat) (d : DecodeReader) (out : List Entry × Option FramingError),
      f ≤ f' → readEntries f d now = some out → readEntries f' d now = some out
  | 0, _, _, _ => by
    intro _ h
    simp [readEntries] at h
  | f + 1, f', d, out => by
    intro hle h
    obtain ⟨g, rfl⟩ : ∃ g, f' = g + 1 := ⟨f' - 1, by omega⟩
    unfold readEntries at h ⊢
    cases hR : d.Read now with
    | eof => rw [hR] at h; exact h
    | err e => rw [hR] at h; exact h
    | ok e d2 =>
      rw [hR] at h
      simp only [] at h ⊢
      obtain ⟨p, hp, hout⟩ := Option.map_eq_some'.mp h
      rw [readEntries_mono now f g d2 p (by omega) hp]
      simpa using hout

theorem readFull_some {n : Nat} {rest b r : List Nat}
    (h : readFull n rest = some (b, r)) :
    n ≤ rest.length ∧ r = rest.drop n := by
  unfold readFull at h
  split at h
  · cases h
  · injection h with h1
    injection h1 with hb hr
    exact ⟨by omega, hr.symm⟩

theorem readRecord_ok_bounds {version : Int} {p : Bool} {now : Int}
    {rest : List Nat} {e : Entry} {c : Nat}
    (h : readRecord version p now rest = .ok e c) :
    1 ≤ c ∧ c ≤ rest.length := by
  unfold readRecord at h
  cases hF1 : readFull TimestampSize rest with
  | none => rw [hF1] at h; cases h
  | some pr1 =>
    obtain ⟨tsBuf, r1⟩ := pr1
    obtain ⟨hn1, hr1⟩ := readFull_some hF1
    rw [hF1] at h
    simp only [] at h
    by_cases hv : version = ProtocolVersion1
    · rw [if_pos hv] at h
      unfold V1ReadMessage at h
      cases hF2 : readFull SizeFieldSize r1 with
      | none => rw [hF2] at h; cases h
      | some pr2 =>
        obtain ⟨sizeBuf, r2⟩ := pr2
        obtain ⟨hn2, hr2⟩ := readFull_some hF2
        rw [hF2] at h
        simp only [] at h
        split at h
        · cases h
        · cases hF3 : readFull (toInt64 (beToNat sizeBuf)).toNat r2 with
          | none => rw [hF3] at h; cases h
          | some pr3 =>
            obtain ⟨msgData, r3⟩ := pr3
            obtain ⟨hn3, hr3⟩ := readFull_some hF3
            rw [hF3] at h
            simp only [] at h
            cases h
            subst hr1 hr2
            simp only [List.length_drop, TimestampSize, SizeFieldSize] at *
            omega
    · rw [if_neg hv] at h
      cases hF2 : readFull KeySizeFieldSize r1 with
      | none => rw [hF2] at h; cases h
      | some pr2 =>
        obtain ⟨keySizeBuf, r2⟩ := pr2
        obtain ⟨hn2, hr2⟩ := readFull_some hF2
        rw [hF2] at h
        simp only [] at h
        split at h
        · cases h
        · cases hF3 : readFull SizeFieldSize r2 with
          | none => rw [hF3] at h; cases h
          | some pr3 =>
            obtain ⟨sizeBuf, r3⟩ := pr3
            obtain ⟨hn3, hr3⟩ := readFull_some hF3
            rw [hF3] at h
            simp only [] at h
            split at h
            · cases h
            · split at h
              · cases hF4 : readFull (toInt64 (beToNat keySizeBuf)).toNat r3 with
                | none => rw [hF4] at h; cases h
                | some pr4 =>
                  obtain ⟨keyData, r4⟩ := pr4
                  obtain ⟨hn4, hr4⟩ := readFull_some hF4
                  rw [hF4] at h
                  simp only [] at h
                  cases hF5 : readFull (toInt64 (beToNat sizeBuf)).toNat r4 with
                  | none => rw [hF5] at h; cases h
                  | some pr5 =>
                    obtain ⟨msgData, r5⟩ := pr5
                    obtain ⟨hn5, hr5⟩ := readFull_some hF5
                    rw [hF5] at h
                    simp only [] at h
                    cases h
                    subst hr1 hr2 hr3 hr4
                    simp only [List.length_drop, TimestampSize,
                      KeySizeFieldSize, SizeFieldSize] at *
                    omega
              · cases hF4 : readFull (toInt64 (beToNat sizeBuf)).toNat r3 with
                | none => rw [hF4] at h; cases h
                | some pr4 =>
                  obtain ⟨msgData, r4⟩ := pr4
                  obtain ⟨hn4, hr4⟩ := readFull_some hF4
                  rw [hF4] at h
                  simp only [] at h
                  cases h
                  subst hr1 hr2 hr3
                  simp only [List.length_drop, TimestampSize,
                    KeySizeFieldSize, SizeFieldSize] at *
                  omega

theorem read_ok_decomp {d : DecodeReader} {now : Int} {e : Entry}
    {d2 : DecodeReader} (h : d.Read now = .ok e d2) :
    ∃ c, readRecord d.protocolVersion d.preserveTimestamps now
        (d.data.drop d.pos) = .ok e c ∧
      d2 = { d with pos := d.pos + c } := by
  unfold DecodeReader.Read at h
  cases hRR : readRecord d.protocolVersion d.preserveTimestamps now
      (d.data.drop d.pos) with
  | eof => rw [hRR] at h; cases h
  | err e2 => rw [hRR] at h; cases h
  | ok e2 c =>
    rw [hRR] at h
    simp only [] at h
    injection h with h1 h2
    subst h1
    exact ⟨c, rfl, h2.symm⟩

theorem readEntries_total (now : Int) :
    ∀ (fuel : Nat) (d : DecodeReader), d.data.length - d.pos < fuel →
      ∃ out, readEntries fuel d now = some out
  | 0, d => by
    intro hf
    exact absurd hf (Nat.not_lt_zero _)
  | fuel + 1, d => by
    intro hf
    unfold readEntries
    cases hR : d.Read now with
    | eof => exact ⟨([], none), rfl⟩
    | err e => exact ⟨([], some e), rfl⟩
    | ok e d2 =>
      obtain ⟨c, hRR, hd2⟩ := read_ok_decomp hR
      have hb := readRecord_ok_bounds hRR
      rw [List.length_drop] at hb
      have hlt : d2.data.length - d2.pos < fuel := by
        subst hd2
        simp only [List.length_drop]
        omega
      obtain ⟨p, hp⟩ := readEntries_total now fuel d2 hlt
      exact ⟨(e :: p.1, p.2), by simp only []; rw [hp]; rfl⟩

theorem flatMap_records_length (msgs : List Entry) :
    msgs.length ≤
      (msgs.flatMap fun m => writeRecordBytes m.timestamp m.data m.key).length := by
  induction msgs with
  | nil => simp
  | cons m ms ih =>
    simp only [List.flatMap_cons, List.length_append, List.length_cons]
    have := writeRecordBytes_length_ge m.timestamp m.data m.key
    omega

theorem flatMap_legacy_length (msgs : List (Int × List Nat)) :
    msgs.length ≤ (msgs.flatMap fun m => legacyRecordBytes m.1 m.2).length := by
  induction msgs with
  | nil => simp
  | cons m ms ih =>
    simp only [List.flatMap_cons, List.length_append, List.length_cons]
    have := legacyRecordBytes_length m.1 m.2
    omega

/-- Round-trip core: a container produced by the encoder decodes to
exactly the records that were written, ending in clean `io.EOF`. -/
theorem decode_encode_core (msgs : List Entry) (now : Int)
    (h : ∀ m ∈ msgs, validEntry m = true) :
    decodeContainer (encodeContainer msgs) true now = .ok (some (msgs, none)) := by
  rw [encodeContainer_eq, decodeContainer, NewDecodeReader_current]
  have hbase := readEntries_flatMap now msgs
    ⟨msgs.flatMap fun m => writeRecordBytes m.timestamp m.data m.key, 0, true,
      ProtocolVersion⟩ h rfl rfl (by simp)
  simp only []
  rw [readEntries_mono now (msgs.length + 1) _ _ _
    (by have := flatMap_records_length msgs; omega) hbase]

/-- Legacy core: a hand-constructed legacy container decodes to the
written records, each with a nil key, ending in clean `io.EOF`. -/
theorem decode_legacy_core (msgs : List (Int × List Nat)) (now : Int)
    (h : ∀ m ∈ msgs, validLegacy m = true) :
    decodeContainer (legacyContainer msgs) true now =
      .ok (some (msgs.map fun m => ⟨m.1, none, m.2⟩, none)) := by
  rw [legacyContainer, decodeContainer, NewDecodeReader_legacy]
  have hbase := readEntries_flatMap_legacy now msgs
    ⟨msgs.flatMap fun m => legacyRecordBytes m.1 m.2, 0, true,
      ProtocolVersion1⟩ h rfl rfl (by simp)
  simp only []
  rw [readEntries_mono now (msgs.length + 1) _ _ _
    (by have := flatMap_legacy_length msgs; omega) hbase]

theorem flushBatch_messageCount (dr : Bool) (st : ReplayState) :
    (flushBatch dr st).messageCount = st.messageCount := by
  unfold flushBatch
  split <;> [rfl; split <;> rfl]

theorem flushBatch_dec (dr : Bool) (st : ReplayState) :
    (flushBatch dr st).dec = st.dec := by
  unfold flushBatch
  split <;> [rfl; split <;> rfl]

theorem flushBatch_batch (dr : Bool) (st : ReplayState) :
    (flushBatch dr st).batch = [] := by
  unfold flushBatch
  split
  · rename_i h
    exact List.isEmpty_iff.mp h
  · split <;> rfl

theorem flushBatch_sent_dry (st : ReplayState) :
    (flushBatch true st).sent = st.sent := by
  unfold flushBatch
  split <;> rfl

theorem flushBatch_flatten (st : ReplayState) :
    (flushBatch false st).sent.flatten ++ (flushBatch false st).batch =
      st.sent.flatten ++ st.batch := by
  unfold flushBatch
  split
  · rfl
  · simp

theorem replay_corresponds (cfg : ReplayConfig) (now : Int)
    (hloop : cfg.Loop = false) :
    ∀ (fuel : Nat) (st : ReplayState) (es : List Entry)
      (err : Option FramingError),
      readEntries fuel st.dec now = some (es, err) →
      ∃ stf, replayLoop cfg now fuel st = some (stf, err) ∧
        stf.messageCount = st.messageCount +
          ((es.filter (matchesFilter cfg.FindBytes)).length : Int) ∧
        (cfg.DryRun = true → stf.sent = st.sent) ∧
        (cfg.DryRun = false →
          stf.sent.flatten ++ stf.batch = st.sent.flatten ++ st.batch ++
            ((es.filter (matchesFilter cfg.FindBytes)).map (entryToMessage cfg))) ∧
        (err = none → stf.batch = [])
  | 0, st, es, err => by
    intro h
    simp [readEntries] at h
  | fuel + 1, st, es, err => by
    intro h
    unfold readEntries at h
    unfold replayLoop
    cases hR : st.dec.Read now with
    | eof =>
      rw [hR] at h
      simp only [Option.some_inj, Prod.mk.injEq] at h
      obtain ⟨rfl, rfl⟩ := h
      rw [hloop]
      refine ⟨flushBatch cfg.DryRun st, by simp, ?_, ?_, ?_, ?_⟩
      · simp [flushBatch_messageCount]
      · intro hdry
        rw [hdry, flushBatch_sent_dry]
      · intro hdry
        rw [hdry, flushBatch_flatten]
        simp
      · intro _
        exact flushBatch_batch _ _
    | err e =>
      rw [hR] at h
      simp only [Option.some_inj, Prod.mk.injEq] at h
      obtain ⟨rfl, rfl⟩ := h
      refine ⟨st, rfl, by simp, fun _ => rfl, fun _ => by simp, by simp⟩
    | ok entry d2 =>
      rw [hR] at h
      simp only [] at h
      obtain ⟨p, hp, hout⟩ := Option.map_eq_some'.mp h
      injection hout with h1 h2
      subst h1
      subst h2
      cases hmatch : matchesFilter cfg.FindBytes entry with
      | false =>
        simp only []
        rw [hmatch]
        simp only [Bool.false_eq_true, if_false]
        obtain ⟨stf, hrun, hcount, hdry, hnondry, hbn⟩ :=
          replay_corresponds cfg now hloop fuel { st with dec := d2 } p.1 p.2
            (by simpa using hp)
        refine ⟨stf, hrun, ?_, hdry, ?_, hbn⟩
        · simpa [List.filter_cons, hmatch] using hcount
        · intro hnd
          simpa [List.filter_cons, hmatch] using hnondry hnd
      | true =>
        simp only []
        rw [hmatch]
        simp only [eq_self_iff_true, if_true]
        set st1 : ReplayState :=
          { st with
            dec := d2,
            batch := st.batch ++ [entryToMessage cfg entry],
            batchBytes := st.batchBytes + entry.data.length,
            messageCount := st.messageCount + 1 } with hst1
        set st2 : ReplayState :=
          if BatchSize ≤ st1.batch.length ∨ BatchBytes ≤ st1.batchBytes then
            flushBatch cfg.DryRun st1
          else st1 with hst2
        have hdec2 : st2.dec = d2 := by
          rw [hst2]
          split
          · rw [flushBatch_dec]
          · rfl
        have hcount2 : st2.messageCount = st.messageCount + 1 := by
          rw [hst2]
          split
          · rw [flushBatch_messageCount]
          · rfl
        have hsent2 : cfg.DryRun = true → st2.sent = st.sent := by
          intro hd
          rw [hst2, hd]
          split
          · rw [flushBatch_sent_dry]
          · rfl
        have hflat2 : st2.sent.flatten ++ st2.batch =
            st.sent.flatten ++ st.batch ++ [entryToMessage cfg entry] ∨
            cfg.DryRun = true := by
          cases hd : cfg.DryRun with
          | true => exact Or.inr rfl
          | false =>
            refine Or.inl ?_
            rw [hst2, hd]
            split
            · rw [flushBatch_flatten]
              simp [hst1, List.append_assoc]
            · simp [hst1, List.append_assoc]
        obtain ⟨stf, hrun, hcount, hdry, hnondry, hbn⟩ :=
          replay_corresponds cfg now hloop fuel st2 p.1 p.2
            (by rw [hdec2]; exact hp)
        refine ⟨stf, hrun, ?_, ?_, ?_, hbn⟩
        · rw [hcount, hcount2]
          simp [List.filter_cons, hmatch]
          omega
        · intro hd
          rw [hdry hd, hsent2 hd]
        · intro hnd
          rcases hflat2 with hf | hcontra
          · rw [hnondry hnd, hf]
            simp [List.filter_cons, hmatch, List.append_assoc]
          · rw [hcontra] at hnd
            cases hnd

theorem replayLoop_dry_sent (cfg : ReplayConfig) (hdry : cfg.DryRun = true)
    (now : Int) :
    ∀ (fuel : Nat) (st stf : ReplayState) (err2 : Option FramingError),
      replayLoop cfg now fuel st = some (stf, err2) → stf.sent = st.sent
  | 0, st, stf, err2 => by
    intro h
    simp [replayLoop] at h
  | fuel + 1, st, stf, err2 => by
    intro h
    unfold replayLoop at h
    cases hR : st.dec.Read now with
    | eof =>
      rw [hR] at h
      simp only [] at h
      split at h
      · have := replayLoop_dry_sent cfg hdry now fuel _ _ _ h
        rw [this]
        show (flushBatch cfg.DryRun st).sent = st.sent
        rw [hdry, flushBatch_sent_dry]
      · injection h with h1
        injection h1 with h2 h3
        rw [← h2]
        show (flushBatch cfg.DryRun st).sent = st.sent
        rw [hdry, flushBatch_sent_dry]
    | err e =>
      rw [hR] at h
      simp only [Option.some_inj, Prod.mk.injEq] at h
      rw [← h.1]
    | ok entry d2 =>
      rw [hR] at h
      simp only [] at h
      split at h
      · have := replayLoop_dry_sent cfg hdry now fuel _ _ _ h
        rw [this]
        split
        · show (flushBatch cfg.DryRun _).sent = st.sent
          rw [hdry, flushBatch_sent_dry]
        · rfl
      · have := replayLoop_dry_sent cfg hdry now fuel _ _ _ h
        exact this


theorem readRecord_now_indep (v : Int) (n1 n2 : Int) (rest : List Nat) :
    readRecord v true n1 rest = readRecord v true n2 rest := by
  rfl

theorem read_reset_read {d : DecodeReader} {now1 : Int} (now2 : Int)
    {e : Entry} {d2 : DecodeReader}
    (hpos : d.pos = 0) (hpre : d.preserveTimestamps = true)
    (h : d.Read now1 = .ok e d2) :
    d2.Reset.Read now2 = .ok e d2 := by
  obtain ⟨c, hRR, rfl⟩ := read_ok_decomp h
  unfold DecodeReader.Reset DecodeReader.Read
  simp only []
  rw [show (List.drop 0 d.data) = d.data.drop d.pos by rw [hpos]]
  rw [hpre] at hRR ⊢
  rw [readRecord_now_indep _ now2 now1]
  rw [hRR]
  simp only []
  rw [show (0 + c) = d.pos + c by omega]

theorem take_append_block {b rest : List Nat} {k : Nat} (h : b.length ≤ k) :
    (b ++ rest).take k = b ++ rest.take (k - b.length) := by
  rw [List.take_append_eq_append_take, List.take_of_length_le h]

theorem readRecord_truncated_none (now t : Int) (dat : List Nat)
    (hd : dat.length ≤ 100 * 1024 * 1024) (k : Nat)
    (hk : k < (writeRecordBytes t dat none).length) :
    readRecord ProtocolVersion true now ((writeRecordBytes t dat none).take k) =
      .eof := by
  rw [writeRecordBytes_length_none] at hk
  simp only [writeRecordBytes, List.append_assoc, TimestampSize, KeySizeFieldSize,
    SizeFieldSize, List.length_nil, ite_self, List.nil_append]
  set A := beBytes 8 (int64ToUint64 t) with hA
  set K := beBytes 8 0 with hK
  set M := beBytes 8 dat.length with hM
  have hAl : A.length = 8 := beBytes_length _ _
  have hKl : K.length = 8 := beBytes_length _ _
  have hMl : M.length = 8 := beBytes_length _ _
  by_cases h8 : k < 8
  · unfold readRecord
    simp only [TimestampSize]
    rw [readFull_short _ (by
      simp only [List.length_take, List.length_append, hAl, hKl, hMl]
      omega)]
  · rw [take_append_block (by omega), hAl]
    unfold readRecord
    simp only [TimestampSize, KeySizeFieldSize, SizeFieldSize, ProtocolVersion,
      ProtocolVersion1]
    rw [readFull_append _ _ hAl]
    simp only []
    rw [if_neg (by decide : ¬ (2 : Int) = 1)]
    by_cases h16 : k - 8 < 8
    · rw [readFull_short _ (by
        simp only [List.length_take, List.length_append, hKl, hMl]
        omega)]
    · rw [take_append_block (by omega), hKl]
      rw [readFull_append _ _ hKl]
      simp only []
      simp only [hK, size_field_value (by norm_num : (0 : Nat) ≤ 100 * 1024 * 1024),
        Nat.cast_zero]
      rw [if_neg (by decide)]
      by_cases h24 : k - 8 - 8 < 8
      · rw [readFull_short _ (by
          simp only [List.length_take, List.length_append, hMl]
          omega)]
      · rw [take_append_block (by omega), hMl]
        rw [readFull_append _ _ hMl]
        simp only []
        simp only [hM, size_field_value hd]
        rw [if_neg (by push_cast; omega)]
        rw [if_neg (by decide : ¬ (0 : Int) < 0)]
        simp only [Int.toNat_natCast]
        rw [readFull_short _ (by
          simp only [List.length_take]
          omega)]

theorem readRecord_truncated_some (now t : Int) (kk dat : List Nat)
    (hk0 : kk ≠ []) (hkb : kk.length ≤ 100 * 1024 * 1024)
    (hd : dat.length ≤ 100 * 1024 * 1024) (k : Nat)
    (hk : k < (writeRecordBytes t dat (some kk)).length) :
    readRecord ProtocolVersion true now
      ((writeRecordBytes t dat (some kk)).take k) = .eof := by
  rw [writeRecordBytes_length_some t dat kk hk0] at hk
  simp only [writeRecordBytes, List.append_assoc, TimestampSize, KeySizeFieldSize,
    SizeFieldSize]
  rw [if_pos (List.length_pos.mpr hk0)]
  set A := beBytes 8 (int64ToUint64 t) with hA
  set K := beBytes 8 kk.length with hK
  set M := beBytes 8 dat.length with hM
  have hAl : A.length = 8 := beBytes_length _ _
  have hKl : K.length = 8 := beBytes_length _ _
  have hMl : M.length = 8 := beBytes_length _ _
  by_cases h8 : k < 8
  · unfold readRecord
    simp only [TimestampSize]
    rw [readFull_short _ (by
      simp only [List.length_take, List.length_append, hAl, hKl, hMl]
      omega)]
  · rw [take_append_block (by omega), hAl]
    unfold readRecord
    simp only [TimestampSize, KeySizeFieldSize, SizeFieldSize, ProtocolVersion,
      ProtocolVersion1]
    rw [readFull_append _ _ hAl]
    simp only []
    rw [if_neg (by decide : ¬ (2 : Int) = 1)]
    by_cases h16 : k - 8 < 8
    · rw [readFull_short _ (by
        simp only [List.length_take, List.length_append, hKl, hMl]
        omega)]
    · rw [take_append_block (by omega), hKl]
      rw [readFull_append _ _ hKl]
      simp only []
      simp only [hK, size_field_value hkb]
      rw [if_neg (by push_cast; omega)]
      by_cases h24 : k - 8 - 8 < 8
      · rw [readFull_short _ (by
          simp only [List.length_take, List.length_append, hMl]
          omega)]
      · rw [take_append_block (by omega), hMl]
        rw [readFull_append _ _ hMl]
        simp only []
        simp only [hM, size_field_value hd]
        rw [if_neg (by push_cast; omega)]
        rw [if_pos (by exact_mod_cast List.length_pos.mpr hk0)]
        simp only [Int.toNat_natCast]
        by_cases hkey : k - 8 - 8 - 8 < kk.length
        · rw [readFull_short _ (by
            simp only [List.length_take, List.length_append]
            omega)]
        · rw [take_append_block (by omega)]
          rw [readFull_append _ _ rfl]
          simp only []
          rw [readFull_short _ (by
            simp only [List.length_take]
            omega)]


theorem readRecord_invalid_keySize (p : Bool) (now : Int) (s : List Nat)
    (hlen : 16 ≤ s.length)
    (hks : toInt64 (beToNat ((s.drop 8).take 8)) < 0 ∨
      100 * 1024 * 1024 < toInt64 (beToNat ((s.drop 8).take 8))) :
    readRecord ProtocolVersion p now s =
      .err (.invalidKeySize (toInt64 (beToNat ((s.drop 8).take 8)))) := by
  unfold readRecord
  simp only [TimestampSize, KeySizeFieldSize, ProtocolVersion, ProtocolVersion1]
  rw [readFull_of_le _ (by omega)]
  simp only []
  rw [if_neg (by decide : ¬ (2 : Int) = 1)]
  rw [readFull_of_le _ (by simp only [List.length_drop]; omega)]
  simp only []
  rw [if_pos hks]

theorem readRecord_invalid_messageSize (p : Bool) (now : Int) (s : List Nat)
    (hlen : 24 ≤ s.length)
    (hks : ¬ (toInt64 (beToNat ((s.drop 8).take 8)) < 0 ∨
      100 * 1024 * 1024 < toInt64 (beToNat ((s.drop 8).take 8))))
    (hms : toInt64 (beToNat ((s.drop 16).take 8)) < 0 ∨
      100 * 1024 * 1024 < toInt64 (beToNat ((s.drop 16).take 8))) :
    readRecord ProtocolVersion p now s =
      .err (.invalidMessageSize (toInt64 (beToNat ((s.drop 16).take 8)))) := by
  unfold readRecord
  simp only [TimestampSize, KeySizeFieldSize, SizeFieldSize, ProtocolVersion,
    ProtocolVersion1]
  rw [readFull_of_le _ (by omega)]
  simp only []
  rw [if_neg (by decide : ¬ (2 : Int) = 1)]
  rw [readFull_of_le _ (by simp only [List.length_drop]; omega)]
  simp only []
  rw [if_neg hks]
  rw [readFull_of_le _ (by simp only [List.length_drop]; omega)]
  simp only []
  rw [List.drop_drop]
  rw [show (8 : Nat) + 8 = 16 from rfl]
  rw [if_pos hms]

theorem readRecord_V1_invalid_messageSize (p : Bool) (now : Int) (s : List Nat)
    (hlen : 16 ≤ s.length)
    (hms : toInt64 (beToNat ((s.drop 8).take 8)) < 0 ∨
      100 * 1024 * 1024 < toInt64 (beToNat ((s.drop 8).take 8))) :
    readRecord ProtocolVersion1 p now s =
      .err (.invalidMessageSize (toInt64 (beToNat ((s.drop 8).take 8)))) := by
  unfold readRecord
  simp only [TimestampSize, ProtocolVersion1]
  rw [readFull_of_le _ (by omega)]
  simp only [if_true]
  unfold V1ReadMessage
  simp only [SizeFieldSize]
  rw [readFull_of_le _ (by simp only [List.length_drop]; omega)]
  simp only []
  rw [if_pos hms]

/-! ## Claims -/

/-- C1 (amended): for every finite sequence of records whose timestamps
are whole seconds in the signed 64-bit range, whose key is either absent
or a NON-EMPTY byte sequence, and whose key/payload sizes are within the
100 MiB bound, encoding with the Encoder and decoding with the Decoder
(timestamps preserved) yields exactly the same records in order, ending
in a clean EndOfContainer.  (The original claim allowed an arbitrary —
possibly empty — present key; an empty present key decodes as an absent
key, so present keys are required to be non-empty here.) -/
theorem c1_roundtrip (msgs : List Entry) (now : Int)
    (h : ∀ m ∈ msgs, validEntry m = true) :
    decodeContainer (encodeContainer msgs) true now = .ok (some (msgs, none)) :=
  decode_encode_core msgs now h

theorem c1_roundtrip_witness :
    (∀ m ∈ ([⟨1, none, []⟩, ⟨2, some [9], [1, 2, 3]⟩] : List Entry),
      validEntry m = true) ∧
    decodeContainer
        (encodeContainer [⟨1, none, []⟩, ⟨2, some [9], [1, 2, 3]⟩]) true 0 =
      .ok (some ([⟨1, none, []⟩, ⟨2, some [9], [1, 2, 3]⟩], none)) :=
  ⟨by decide, c1_roundtrip [⟨1, none, []⟩, ⟨2, some [9], [1, 2, 3]⟩] 0 (by decide)⟩

/-- C1 counterexample: a record with an empty-but-present key (`some []`,
a non-nil empty Go slice) round-trips to a record with an absent key
(`none`), so `Decode(Encode(records)) == records` fails for it. -/
theorem c1_empty_key_counterexample :
    decodeContainer (encodeContainer [⟨5, some [], [7]⟩]) true 0 =
      .ok (some ([⟨5, none, [7]⟩], none)) ∧
    (⟨5, none, [7]⟩ : Entry) ≠ ⟨5, some [], [7]⟩ :=
  ⟨by rfl, by decide⟩

/-- Does a `Read` outcome carry a framing error? -/
def ReadOut.isFramingErr : ReadOut → Bool
  | .err _ => true
  | _ => false

/-- A container that ends strictly inside a record: after the header it
has a full timestamp field and a full key-size field (key size 3), but
none of the 3 key bytes nor the message-size field that must follow. -/
def c2TruncBytes : List Nat := fileHeaderBytes ++ beBytes 8 1 ++ beBytes 8 3

/-- C2 counterexample: on a source that ends strictly inside a record,
`Read` returns the EndOfContainer signal (`io.EOF`) itself — not a
`FramingError(truncated)` distinct from it, as the claim states. -/
theorem c2_truncated_counterexample :
    (NewDecodeReader c2TruncBytes true).toOption.map (fun d => d.Read 0) =
      some ReadOut.eof ∧
    (NewDecodeReader c2TruncBytes true).toOption.map
        (fun d => (d.Read 0).isFramingErr) = some false :=
  ⟨by rfl, by rfl⟩

/-- Reading a legacy (version-1) record truncated strictly inside it
(the `V1ReadMessage` path) also yields `io.EOF`, for every truncation
point. -/
theorem readRecord_truncated_legacy (now t : Int) (dat : List Nat)
    (hd : dat.length ≤ 100 * 1024 * 1024) (k : Nat)
    (hk : k < (legacyRecordBytes t dat).length) :
    readRecord ProtocolVersion1 true now ((legacyRecordBytes t dat).take k) =
      .eof := by
  rw [legacyRecordBytes_length] at hk
  simp only [legacyRecordBytes, List.append_assoc, TimestampSize, SizeFieldSize]
  set A := beBytes 8 (int64ToUint64 t) with hA
  set M := beBytes 8 dat.length with hM
  have hAl : A.length = 8 := beBytes_length _ _
  have hMl : M.length = 8 := beBytes_length _ _
  by_cases h8 : k < 8
  · unfold readRecord
    simp only [TimestampSize]
    rw [readFull_short _ (by
      simp only [List.length_take, List.length_append, hAl, hMl]
      omega)]
  · rw [take_append_block (by omega), hAl]
    unfold readRecord
    simp only [TimestampSize]
    rw [readFull_append _ _ hAl]
    simp only [if_true]
    unfold V1ReadMessage
    simp only [SizeFieldSize]
    by_cases h16 : k - 8 < 8
    · rw [readFull_short _ (by
        simp only [List.length_take, List.length_append, hMl]
        omega)]
    · rw [take_append_block (by omega), hMl]
      rw [readFull_append _ _ hMl]
      simp only []
      simp only [hM, size_field_value hd]
      rw [if_neg (by push_cast; omega)]
      simp only [Int.toNat_natCast]
      rw [readFull_short _ (by
        simp only [List.length_take]
        omega)]

/-- C2 (amended): exhaustion exactly at a record boundary yields
EndOfContainer (`io.EOF`); a source that ends strictly inside a record
ALSO yields the same `io.EOF` signal (the Go decoder and the legacy
`V1ReadMessage` map `io.ErrUnexpectedEOF` to `io.EOF` at every read
site), not a distinct truncation error — for version-2 records with an
absent key, for version-2 records with a non-empty key, and for legacy
(version-1) records. -/
theorem c2_truncation_is_eof :
    (∀ (version : Int) (p : Bool) (now : Int),
      readRecord version p now [] = .eof) ∧
    (∀ (now t : Int) (dat : List Nat) (k : Nat),
      dat.length ≤ 100 * 1024 * 1024 →
      k < (writeRecordBytes t dat none).length →
      readRecord ProtocolVersion true now
        ((writeRecordBytes t dat none).take k) = .eof) ∧
    (∀ (now t : Int) (kk dat : List Nat) (k : Nat),
      kk ≠ [] → kk.length ≤ 100 * 1024 * 1024 →
      dat.length ≤ 100 * 1024 * 1024 →
      k < (writeRecordBytes t dat (some kk)).length →
      readRecord ProtocolVersion true now
        ((writeRecordBytes t dat (some kk)).take k) = .eof) ∧
    (∀ (now t : Int) (dat : List Nat) (k : Nat),
      dat.length ≤ 100 * 1024 * 1024 →
      k < (legacyRecordBytes t dat).length →
      readRecord ProtocolVersion1 true now
        ((legacyRecordBytes t dat).take k) = .eof) :=
  ⟨fun version p now => readRecord_nil version p now,
   fun now t dat k hd hk => readRecord_truncated_none now t dat hd k hk,
   fun now t kk dat k hk0 hkb hd hk =>
     readRecord_truncated_some now t kk dat hk0 hkb hd k hk,
   fun now t dat k hd hk => readRecord_truncated_legacy now t dat hd k hk⟩

theorem c2_truncation_is_eof_witness :
    readRecord ProtocolVersion true 0 ((writeRecordBytes 5 [1, 2, 3] none).take 10) =
      .eof ∧
    readRecord ProtocolVersion true 0
        ((writeRecordBytes 5 [1, 2] (some [9])).take 26) = .eof ∧
    readRecord ProtocolVersion1 true 0 ((legacyRecordBytes 5 [1, 2, 3]).take 17) =
      .eof :=
  ⟨c2_truncation_is_eof.2.1 0 5 [1, 2, 3] 10 (by decide) (by decide),
   c2_truncation_is_eof.2.2.1 0 5 [9] [1, 2] 26 (by decide) (by decide)
     (by decide) (by decide),
   c2_truncation_is_eof.2.2.2 0 5 [1, 2, 3] 17 (by decide) (by decide)⟩

/-- A container holding one valid record (timestamp 0, no key, payload
`[65]`) followed by a record whose key-size field holds 200 MiB — a
framing error on the second `Read`. -/
def c3ContainerBytes : List Nat :=
  fileHeaderBytes ++ writeRecordBytes 0 [65] none ++ beBytes 8 5 ++
    beBytes 8 (200 * 1024 * 1024)

/-- Replay configuration with every optional feature off. -/
def c3Cfg : ReplayConfig :=
  { Rate := 0, Loop := false, Partition := none, DryRun := false,
    FindBytes := none }

/-- C3 counterexample: replaying `c3ContainerBytes` decodes and batches
one record (`messageCount = 1`), then hits the framing error — and the
session returns with NO dispatched batch (`[]`): the accumulated record
was dropped, not flushed to the sink as the claim states. -/
theorem c3_no_flush_counterexample :
    (NewDecodeReader c3ContainerBytes true).toOption.bind
        (fun d => Replay c3Cfg d 0) =
      some (1, [], some (.invalidKeySize 209715200)) := by
  rfl

/-- C3 (amended): when `Read` returns a framing error and the context is
not cancelled, the session terminates immediately with that error and the
state unchanged: the current in-memory batch is NOT flushed — nothing
more is dispatched (in dry-run or not) and the batched records are
dropped, though they remain counted in `messageCount`. -/
theorem c3_framing_error_no_flush (cfg : ReplayConfig) (now : Int) (fuel : Nat)
    (st : ReplayState) (e : FramingError) (h : st.dec.Read now = .err e) :
    replayLoop cfg now (fuel + 1) st = some (st, some e) := by
  unfold replayLoop
  rw [h]

/-- A replay state whose decoder faces a corrupt key-size field and whose
batch already holds one undispatched message. -/
def c3WitnessState : ReplayState :=
  { dec := ⟨beBytes 8 5 ++ beBytes 8 (200 * 1024 * 1024), 0, true,
      ProtocolVersion⟩,
    batch := [⟨none, [65], 0, 0⟩], batchBytes := 1, messageCount := 1,
    sent := [] }

theorem c3_framing_error_no_flush_witness :
    replayLoop c3Cfg 0 1 c3WitnessState =
      some (c3WitnessState, some (.invalidKeySize 209715200)) := by
  have h := c3_framing_error_no_flush c3Cfg 0 0 c3WitnessState
    (.invalidKeySize 209715200) (by rfl)
  exact h

/-- Scenario A container: one record with timestamp 1706872530, key
`"user-123"` (8 bytes), payload `"Hello, World!"` (13 bytes). -/
def scenarioABytes : List Nat :=
  encodeContainer
    [⟨1706872530, some [117, 115, 101, 114, 45, 49, 50, 51],
      [72, 101, 108, 108, 111, 44, 32, 87, 111, 114, 108, 100, 33]⟩]

/-- C4 counterexample: the big-endian encoding of 1706872530 is
`0x0000000065BCCED2`, so bytes 20–27 of the Scenario A container do NOT
equal the claimed `0x00000000659C5C92` (which is 1704746130). -/
theorem c4_timestamp_bytes_counterexample :
    (scenarioABytes.drop 20).take 8 =
      [0x00, 0x00, 0x00, 0x00, 0x65, 0xBC, 0xCE, 0xD2] ∧
    (scenarioABytes.drop 20).take 8 ≠
      [0x00, 0x00, 0x00, 0x00, 0x65, 0x9C, 0x5C, 0x92] ∧
    beToNat [0x00, 0x00, 0x00, 0x00, 0x65, 0x9C, 0x5C, 0x92] ≠ 1706872530 :=
  ⟨by decide, by decide, by decide⟩

/-- C4 (amended): the Scenario A container is exactly 65 bytes
(20-byte header plus 8+8+8+8+13); bytes 20–27 are the big-endian
timestamp `0x0000000065BCCED2` (= 1706872530 — not `0x659C5C92` as the
claim says); bytes 28–35 encode keySize 8 and bytes 36–43 encode
payloadSize 13. -/
theorem c4_scenarioA :
    scenarioABytes.length = 65 ∧
    (scenarioABytes.drop 20).take 8 =
      [0x00, 0x00, 0x00, 0x00, 0x65, 0xBC, 0xCE, 0xD2] ∧
    beToNat ((scenarioABytes.drop 20).take 8) = 1706872530 ∧
    (scenarioABytes.drop 28).take 8 = beBytes 8 8 ∧
    beToNat ((scenarioABytes.drop 28).take 8) = 8 ∧
    (scenarioABytes.drop 36).take 8 = beBytes 8 13 ∧
    beToNat ((scenarioABytes.drop 36).take 8) = 13 :=
  ⟨by decide, by decide, by decide, by decide, by decide, by decide, by decide⟩

/-- C5: a hand-constructed legacy-layout container (header version 1, each
record `timestamp(8) + payloadSize(8) + payload` with no keySize field)
decodes successfully, and every record comes back with an absent key and
the legacy-decoded timestamp and payload. -/
theorem c5_legacy_decode (msgs : List (Int × List Nat)) (now : Int)
    (h : ∀ m ∈ msgs, validLegacy m = true) :
    decodeContainer (legacyContainer msgs) true now =
      .ok (some (msgs.map fun m => ⟨m.1, none, m.2⟩, none)) :=
  decode_legacy_core msgs now h

theorem c5_legacy_decode_witness :
    decodeContainer (legacyContainer [(3, [1, 2]), (4, [])]) true 0 =
      .ok (some ([⟨3, none, [1, 2]⟩, ⟨4, none, []⟩], none)) :=
  c5_legacy_decode [(3, [1, 2]), (4, [])] 0 (by decide)

/-- C6: whenever the encoded `keySize` or `payloadSize` field of the next
record parses to a value outside `[0, 100*1024*1024]`, `Read` returns the
corresponding size framing error (`invalid key size` / `invalid message
size`) and no record — in the version-2 layout for both fields, and in
the legacy layout for its size field.  The oversized size is never
accepted: the result is an error, not an `ok` record with truncated
data. -/
theorem c6_size_out_of_bounds :
    (∀ (d : DecodeReader) (now : Int), d.protocolVersion = ProtocolVersion →
      16 ≤ (d.data.drop d.pos).length →
      (toInt64 (beToNat (((d.data.drop d.pos).drop 8).take 8)) < 0 ∨
        100 * 1024 * 1024 <
          toInt64 (beToNat (((d.data.drop d.pos).drop 8).take 8))) →
      d.Read now = .err (.invalidKeySize
        (toInt64 (beToNat (((d.data.drop d.pos).drop 8).take 8))))) ∧
    (∀ (d : DecodeReader) (now : Int), d.protocolVersion = ProtocolVersion →
      24 ≤ (d.data.drop d.pos).length →
      ¬ (toInt64 (beToNat (((d.data.drop d.pos).drop 8).take 8)) < 0 ∨
        100 * 1024 * 1024 <
          toInt64 (beToNat (((d.data.drop d.pos).drop 8).take 8))) →
      (toInt64 (beToNat (((d.data.drop d.pos).drop 16).take 8)) < 0 ∨
        100 * 1024 * 1024 <
          toInt64 (beToNat (((d.data.drop d.pos).drop 16).take 8))) →
      d.Read now = .err (.invalidMessageSize
        (toInt64 (beToNat (((d.data.drop d.pos).drop 16).take 8))))) ∧
    (∀ (d : DecodeReader) (now : Int), d.protocolVersion = ProtocolVersion1 →
      16 ≤ (d.data.drop d.pos).length →
      (toInt64 (beToNat (((d.data.drop d.pos).drop 8).take 8)) < 0 ∨
        100 * 1024 * 1024 <
          toInt64 (beToNat (((d.data.drop d.pos).drop 8).take 8))) →
      d.Read now = .err (.invalidMessageSize
        (toInt64 (beToNat (((d.data.drop d.pos).drop 8).take 8))))) := by
  refine ⟨?_, ?_, ?_⟩
  · intro d now hver hlen hks
    unfold DecodeReader.Read
    rw [hver, readRecord_invalid_keySize d.preserveTimestamps now _ hlen hks]
  · intro d now hver hlen hks hms
    unfold DecodeReader.Read
    rw [hver, readRecord_invalid_messageSize d.preserveTimestamps now _ hlen hks hms]
  · intro d now hver hlen hms
    unfold DecodeReader.Read
    rw [hver, readRecord_V1_invalid_messageSize d.preserveTimestamps now _ hlen hms]

/-- A version-2 reader whose next record has keySize 200 MiB. -/
def c6KeyReader : DecodeReader :=
  ⟨beBytes 8 0 ++ beBytes 8 (200 * 1024 * 1024) ++ beBytes 8 0, 0, true,
    ProtocolVersion⟩

/-- A version-2 reader whose next record has a negative messageSize
(top bit set in the 8-byte field). -/
def c6MsgReader : DecodeReader :=
  ⟨beBytes 8 0 ++ beBytes 8 1 ++ beBytes 8 (2 ^ 63) ++ [0], 0, true,
    ProtocolVersion⟩

/-- A legacy reader whose next record has messageSize 150 MiB. -/
def c6V1Reader : DecodeReader :=
  ⟨beBytes 8 0 ++ beBytes 8 (150 * 1024 * 1024), 0, true, ProtocolVersion1⟩

theorem c6_size_out_of_bounds_witness :
    (c6KeyReader.Read 0 = .err (.invalidKeySize
      (toInt64 (beToNat (((c6KeyReader.data.drop c6KeyReader.pos).drop 8).take 8)))) ∧
      toInt64 (beToNat (((c6KeyReader.data.drop c6KeyReader.pos).drop 8).take 8)) =
        209715200) ∧
    (c6MsgReader.Read 0 = .err (.invalidMessageSize
      (toInt64 (beToNat (((c6MsgReader.data.drop c6MsgReader.pos).drop 16).take 8)))) ∧
      toInt64 (beToNat (((c6MsgReader.data.drop c6MsgReader.pos).drop 16).take 8)) =
        -(2 ^ 63)) ∧
    (c6V1Reader.Read 0 = .err (.invalidMessageSize
      (toInt64 (beToNat (((c6V1Reader.data.drop c6V1Reader.pos).drop 8).take 8)))) ∧
      toInt64 (beToNat (((c6V1Reader.data.drop c6V1Reader.pos).drop 8).take 8)) =
        157286400) :=
  ⟨⟨c6_size_out_of_bounds.1 c6KeyReader 0 rfl (by decide) (by decide), by decide⟩,
   ⟨c6_size_out_of_bounds.2.1 c6MsgReader 0 rfl (by decide) (by decide) (by decide),
     by decide⟩,
   ⟨c6_size_out_of_bounds.2.2 c6V1Reader 0 rfl (by decide) (by decide), by decide⟩⟩

/-- C7: with `DryRun` set, (a) for any configuration, any fuel and any
state, whatever the replay loop returns, nothing was added to the
dispatched-batches list — the sink's dispatch capability is never
invoked; (b) draining any decoder terminates within the fuel `Replay`
uses; and (c) when `Loop` is unset the session returns, with
`messageCount` equal to the number of records that decode successfully
and pass the find filter, an empty dispatch list, and the decoder's
terminal signal. -/
theorem c7_dry_run_no_dispatch (cfg : ReplayConfig) (hdry : cfg.DryRun = true)
    (now : Int) :
    (∀ (fuel : Nat) (st stf : ReplayState) (err2 : Option FramingError),
      replayLoop cfg now fuel st = some (stf, err2) → stf.sent = st.sent) ∧
    (∀ d : DecodeReader,
      ∃ out, readEntries (d.data.length - d.pos + 1) d now = some out) ∧
    (cfg.Loop = false →
      ∀ (d : DecodeReader) (es : List Entry) (err : Option FramingError),
        readEntries (d.data.length - d.pos + 1) d now = some (es, err) →
        Replay cfg d now =
          some (((es.filter (matchesFilter cfg.FindBytes)).length : Int),
            [], err)) := by
  refine ⟨replayLoop_dry_sent cfg hdry now, ?_, ?_⟩
  · intro d
    exact readEntries_total now _ d (by omega)
  · intro hloop d es err h
    obtain ⟨stf, hrun, hcount, hdrysent, _, _⟩ :=
      replay_corresponds cfg now hloop (d.data.length - d.pos + 1)
        ⟨d, [], 0, 0, []⟩ es err h
    rw [Replay, hrun]
    simp [hdrysent hdry, hcount]

/-- Thirty distinct records for the Scenario D dry run. -/
def c7Msgs : List Entry := (List.range 30).map fun i => ⟨Int.ofNat i, none, [65, i]⟩

/-- Scenario D configuration: rate 10, dry run, no loop, no filter. -/
def c7Cfg : ReplayConfig :=
  { Rate := 10, Loop := false, Partition := none, DryRun := true,
    FindBytes := none }

/-- The decoder `NewDecodeReader` yields on the Scenario D container. -/
def c7Reader : DecodeReader :=
  ⟨(encodeContainer c7Msgs).drop HeaderSize, 0, true, ProtocolVersion⟩

set_option maxRecDepth 40000 in
theorem c7_dry_run_no_dispatch_witness :
    NewDecodeReader (encodeContainer c7Msgs) true = .ok c7Reader ∧
    Replay c7Cfg c7Reader 0 = some (30, [], none) := by
  constructor
  · rfl
  · have h := (c7_dry_run_no_dispatch c7Cfg rfl 0).2.2 rfl c7Reader c7Msgs none
      (by rfl)
    rw [h]
    rfl

/-- C8: with a find filter `f` set (and dry-run off, loop off), the
session selects exactly the records whose payload contains `f` as a
contiguous byte subsequence: `messageCount` counts exactly those records;
the messages dispatched so far, followed by the still-unflushed batch,
are exactly the matching records in order (so a non-matching record is
never counted, batched, or dispatched); and on clean termination the
dispatched messages are exactly the matching records. -/
theorem c8_find_filter (cfg : ReplayConfig) (f : List Nat) (now : Int)
    (hf : cfg.FindBytes = some f) (hnd : cfg.DryRun = false)
    (hloop : cfg.Loop = false) (d : DecodeReader) (es : List Entry)
    (err : Option FramingError)
    (h : readEntries (d.data.length - d.pos + 1) d now = some (es, err)) :
    ∃ stf : ReplayState,
      Replay cfg d now = some (stf.messageCount, stf.sent, err) ∧
      stf.messageCount =
        ((es.filter fun e => bytesContains e.data f).length : Int) ∧
      stf.sent.flatten ++ stf.batch =
        (es.filter fun e => bytesContains e.data f).map (entryToMessage cfg) ∧
      (err = none → stf.sent.flatten =
        (es.filter fun e => bytesContains e.data f).map (entryToMessage cfg)) := by
  have hmf : matchesFilter cfg.FindBytes = fun e => bytesContains e.data f := by
    rw [hf]
    rfl
  obtain ⟨stf, hrun, hcount, _, hnondry, hbn⟩ :=
    replay_corresponds cfg now hloop (d.data.length - d.pos + 1)
      ⟨d, [], 0, 0, []⟩ es err h
  refine ⟨stf, ?_, ?_, ?_, ?_⟩
  · rw [Replay, hrun]
    rfl
  · rw [hcount, hmf]
    simp
  · have := hnondry hnd
    rw [hmf] at this
    simpa using this
  · intro herr
    have hb := hbn herr
    have := hnondry hnd
    rw [hmf] at this
    rw [hb] at this
    simpa using this

/-- Ten records of which exactly two (timestamps 2 and 7) contain the
byte 69 in their payload. -/
def c8Msgs : List Entry :=
  [⟨0, none, [70]⟩, ⟨1, none, [70]⟩, ⟨2, none, [69, 1]⟩, ⟨3, none, [70]⟩,
   ⟨4, none, [70]⟩, ⟨5, none, [70]⟩, ⟨6, none, [70]⟩, ⟨7, none, [1, 69]⟩,
   ⟨8, none, [70]⟩, ⟨9, none, [70]⟩]

/-- Scenario F configuration: find filter `[69]`, everything else off. -/
def c8Cfg : ReplayConfig :=
  { Rate := 0, Loop := false, Partition := none, DryRun := false,
    FindBytes := some [69] }

/-- The decoder `NewDecodeReader` yields on the Scenario F container. -/
def c8Reader : DecodeReader :=
  ⟨(encodeContainer c8Msgs).drop HeaderSize, 0, true, ProtocolVersion⟩

set_option maxRecDepth 40000 in
theorem c8_find_filter_witness :
    NewDecodeReader (encodeContainer c8Msgs) true = .ok c8Reader ∧
    Replay c8Cfg c8Reader 0 =
      some (((c8Msgs.filter fun e => bytesContains e.data [69]).length : Int),
        [[⟨none, [69, 1], 2, 0⟩, ⟨none, [1, 69], 7, 0⟩]], none) ∧
    ((c8Msgs.filter fun e => bytesContains e.data [69]).length : Int) = 2 := by
  obtain ⟨stf, hrun, hcount, hflat, hflush⟩ :=
    c8_find_filter c8Cfg [69] 0 rfl rfl rfl c8Reader c8Msgs none (by rfl)
  have heval : Replay c8Cfg c8Reader 0 =
      some (2, [[(⟨none, [69, 1], 2, 0⟩ : KafkaMessage),
        ⟨none, [1, 69], 7, 0⟩]], none) := by rfl
  refine ⟨by rfl, ?_, by rfl⟩
  rw [hrun] at heval
  have h1 := Option.some.inj heval
  rw [Prod.mk.injEq, Prod.mk.injEq] at h1
  rw [hrun, hcount, h1.2.1]

/-- C9: for a freshly opened decoder with timestamps preserved (cursor at
the data-start position), if `Read` yields a first record, then
`Reset` followed by `Read` yields the identical record (same timestamp,
key, and payload) and leaves the reader in the same position — even at a
different wall-clock instant `now2`. -/
theorem c9_read_reset_read (d : DecodeReader) (now1 now2 : Int) (e : Entry)
    (d2 : DecodeReader) (hpos : d.pos = 0)
    (hpre : d.preserveTimestamps = true) (h : d.Read now1 = .ok e d2) :
    d2.Reset.Read now2 = .ok e d2 :=
  read_reset_read now2 hpos hpre h

/-- The decoder `NewDecodeReader` yields on a one-record container. -/
def c9Reader : DecodeReader :=
  ⟨(encodeContainer [⟨11, some [8], [1, 2]⟩]).drop HeaderSize, 0, true,
    ProtocolVersion⟩

theorem c9_read_reset_read_witness :
    NewDecodeReader (encodeContainer [⟨11, some [8], [1, 2]⟩]) true =
      .ok c9Reader ∧
    c9Reader.Read 3 = .ok ⟨11, some [8], [1, 2]⟩ { c9Reader with pos := 27 } ∧
    ({ c9Reader with pos := 27 } : DecodeReader).Reset.Read 4 =
      .ok ⟨11, some [8], [1, 2]⟩ { c9Reader with pos := 27 } :=
  ⟨by rfl, by rfl,
    c9_read_reset_read c9Reader 3 4 ⟨11, some [8], [1, 2]⟩
      { c9Reader with pos := 27 } rfl rfl (by rfl)⟩

/-- C10: writing a record with an empty-but-present key (`some []`, a
non-nil empty Go slice) appends exactly the same bytes, updates the
encoder identically, and reports the same `bytesWritten` as writing it
with an absent key (`none`); both serialize `keySize = 0` with no key
bytes, and decoding those bytes yields an absent key — an empty key is
indistinguishable from an absent key after a round trip. -/
theorem c10_empty_key_eq_absent (t : Int) (dat : List Nat) :
    writeRecordBytes t dat (some []) = writeRecordBytes t dat none ∧
    (∀ e : EncodeWriter, e.Write t dat (some []) = e.Write t dat none) ∧
    bytesWrittenFor dat (some []) = bytesWrittenFor dat none ∧
    (-(2 ^ 63) ≤ t → t < 2 ^ 63 → dat.length ≤ 100 * 1024 * 1024 →
      ∀ (rest : List Nat) (now : Int),
        readRecord ProtocolVersion true now
            (writeRecordBytes t dat (some []) ++ rest) =
          .ok ⟨t, none, dat⟩ (24 + dat.length)) := by
  have hw : writeRecordBytes t dat (some []) = writeRecordBytes t dat none := by
    simp [writeRecordBytes]
  have hb : bytesWrittenFor dat (some []) = bytesWrittenFor dat none := by
    simp [bytesWrittenFor]
  refine ⟨hw, ?_, hb, ?_⟩
  · intro e
    unfold EncodeWriter.Write
    rw [hw, hb]
  · intro ht1 ht2 hd rest now
    rw [hw]
    exact readRecord_write_none now t dat rest ht1 ht2 hd

theorem c10_empty_key_eq_absent_witness :
    writeRecordBytes 3 [1] (some []) = writeRecordBytes 3 [1] none ∧
    readRecord ProtocolVersion true 0 (writeRecordBytes 3 [1] (some []) ++ []) =
      .ok ⟨3, none, [1]⟩ 25 :=
  ⟨(c10_empty_key_eq_absent 3 [1]).1,
   (c10_empty_key_eq_absent 3 [1]).2.2.2 (by decide) (by decide) (by decide) [] 0⟩
